import Mathlib

/-
Verification development for the Skryvix observer code: the browser-side
handlers in src/static/script.js (first document in the file), the task
history page src/static/task.js, and the workspace/task page script
(src/unnamed/part_001).  JS strings are modelled as `List Char` where
character-level operations (substring, startsWith, split) matter and as
`String` elsewhere; JS objects used as string-keyed dictionaries are
modelled as `String → Option _` (unordered access) or as ordered
association lists `List (String × _)` where iteration order matters.
-/

namespace Skryvix

/-
Progress panel model, from src/static/script.js:
`requestTaskProgress`, `updateProgressPanelFull`, `updateProgressPanelDelta`.
The separator literal is the JS string "\n|||\n".
-/

def sepChars : List Char := ['\n', '|', '|', '|', '\n']

/-
Number of non-overlapping, leftmost-first occurrences of `sepChars` in a
character list, as counted by JS `str.split('\n|||\n')` (whose result
length is this count plus one).  The fuel argument makes the greedy scan
structurally recursive; `occCount` instantiates it with the list length,
which always suffices because every step consumes at least one character.
-/
def occCountAux : Nat → List Char → Nat
  | _, [] => 0
  | 0, _ :: _ => 0
  | fuel + 1, c :: rest =>
    if sepChars.isPrefixOf (c :: rest) then
      occCountAux fuel ((c :: rest).drop sepChars.length) + 1
    else
      occCountAux fuel rest

def occCount (s : List Char) : Nat := occCountAux s.length s

/- Length of `content.split('\n|||\n')` in the JS source. -/
def sepSplitCount (s : List Char) : Nat := occCount s + 1

/-
The progress panel's DOM state: `shortId` is progressTaskId.textContent
with the leading "Task ID: " label removed (the handlers recover it via
`.replace('Task ID: ', '')`), `content` is progressContent.textContent.
-/
structure ProgressPanel where
  shortId : List Char
  content : List Char
deriving DecidableEq

def loadingText : List Char := ['L', 'o', 'a', 'd', 'i', 'n', 'g', '.', '.', '.']

/- `requestTaskProgress`: shows the panel with `taskId.substring(0, 8)`. -/
def requestTaskProgress (taskId : List Char) (_p : ProgressPanel) : ProgressPanel :=
  { shortId := taskId.take 8, content := loadingText }

/- `updateProgressPanelFull`: applies iff `receivedTaskId.startsWith(displayedTaskIdShort)`. -/
def updateProgressPanelFull (task_id history : List Char) (p : ProgressPanel) : ProgressPanel :=
  if p.shortId.isPrefixOf task_id then { p with content := history } else p

/-
`updateProgressPanelDelta`: same prefix guard; inserts the "\n|||\n"
separator when the current content splits into fewer than 3 parts, then
appends the token.
-/
def updateProgressPanelDelta (task_id token : List Char) (p : ProgressPanel) : ProgressPanel :=
  if p.shortId.isPrefixOf task_id then
    { p with content :=
        (if sepSplitCount p.content < 3 then p.content ++ sepChars else p.content) ++ token }
  else p

def runDeltas (task_id : List Char) (tokens : List (List Char)) (p : ProgressPanel) : ProgressPanel :=
  tokens.foldl (fun q t => updateProgressPanelDelta task_id t q) p

/-
Task-history page model, from src/static/task.js: `eventSource.onmessage`
replaces the container on `initial_history` and appends on `history_update`.
-/

inductive SSEMsg where
  | initialHistory (history : List Char)
  | historyUpdate (tokens : List Char)

def sseOnMessage (container : List Char) : SSEMsg → List Char
  | .initialHistory h => h
  | .historyUpdate t => container ++ t

def runSSE (msgs : List SSEMsg) (container : List Char) : List Char :=
  msgs.foldl sseOnMessage container

/-
Agent action buttons, from `updateUI` in src/static/script.js (first
document): Start for 'created'/'stopped'/'error', else Stop for
'idle'/'busy'; Terminate whenever the status is not 'terminating'.
-/

structure AgentActions where
  start : Bool
  stop : Bool
  terminate : Bool
deriving DecidableEq

def agentActions (status : String) : AgentActions :=
  if ["created", "stopped", "error"].contains status then
    { start := true, stop := false, terminate := status != "terminating" }
  else if ["idle", "busy"].contains status then
    { start := false, stop := true, terminate := status != "terminating" }
  else
    { start := false, stop := false, terminate := status != "terminating" }

/- `const status = agent.status || 'unknown'` in `updateUI`. -/
def effectiveAgentStatus (status : Option String) : String :=
  match status with
  | none => "unknown"
  | some s => if s = "" then "unknown" else s

/-
Observer state and server-to-observer messages, from src/static/script.js
(first document): globals currentAgents, currentTasks, currentAssignmentMode
and the `ws.onmessage` cases for 'state' and 'mode_update'.
-/

structure AgentData where
  id : String
  status : String
  assigned_task_id : Option String
deriving DecidableEq

structure TaskData where
  id : String
  status : String
  description : String
  assigned_agent_id : Option String
  result : Option String
deriving DecidableEq

structure ObserverState where
  agents : List (String × AgentData)
  tasks : List (String × TaskData)
  mode : String
deriving DecidableEq

structure StateMsg where
  agents : Option (List (String × AgentData))
  tasks : Option (List (String × TaskData))
  mode : Option String
deriving DecidableEq

/- The 'state' branch: `currentAgents = data.agents || {}` and so on. -/
def applyStateMsg (m : StateMsg) (_s : ObserverState) : ObserverState :=
  { agents := m.agents.getD []
    tasks := m.tasks.getD []
    mode := m.mode.getD "auto" }

/- The 'mode_update' branch: `currentAssignmentMode = data.mode`. -/
def applyModeUpdate (mode : String) (s : ObserverState) : ObserverState :=
  { s with mode := mode }

/-
Command messages sent through `sendWsCommand` in src/static/script.js.
A payload is a list of (field, value) pairs; `none` models a message
sent without any payload property.
-/

structure CommandMsg where
  command : String
  payload : Option (List (String × String))
deriving DecidableEq

def setAssignmentModeCmd (checked : Bool) : CommandMsg :=
  { command := "set_assignment_mode", payload := some [("mode", if checked then "auto" else "manual")] }

def createAgentCmd (config : String) : CommandMsg :=
  { command := "create_agent", payload := some [("config", config)] }

def startAgentCmd (agentId : String) : CommandMsg :=
  { command := "start_agent", payload := some [("agent_id", agentId)] }

def stopAgentCmd (agentId : String) : CommandMsg :=
  { command := "stop_agent", payload := some [("agent_id", agentId)] }

def addTaskCmd (description : String) : CommandMsg :=
  { command := "add_task", payload := some [("description", description)] }

def terminateAgentCmd (agentId : String) : CommandMsg :=
  { command := "terminate_agent", payload := some [("agent_id", agentId)] }

def deleteTaskCmd (taskId : String) : CommandMsg :=
  { command := "delete_task", payload := some [("task_id", taskId)] }

def manualAssignTaskCmd (taskId agentId : String) : CommandMsg :=
  { command := "manual_assign_task", payload := some [("task_id", taskId), ("agent_id", agentId)] }

def getProgressCmd (taskId : String) : CommandMsg :=
  { command := "get_progress", payload := some [("task_id", taskId)] }

/- The second document's spawnAgentBtn.onclick sends only a command tag. -/
def spawnAgentCmd : CommandMsg :=
  { command := "spawn_agent", payload := none }

/-
The command messages producible by the current UI document's handlers
(first and third documents of src/static/script.js share these nine
call sites of `sendWsCommand`).
-/
inductive UISentCommand : CommandMsg → Prop where
  | setAssignmentMode (checked : Bool) : UISentCommand (setAssignmentModeCmd checked)
  | createAgent (config : String) : UISentCommand (createAgentCmd config)
  | startAgent (agentId : String) : UISentCommand (startAgentCmd agentId)
  | stopAgent (agentId : String) : UISentCommand (stopAgentCmd agentId)
  | addTask (description : String) : UISentCommand (addTaskCmd description)
  | terminateAgent (agentId : String) : UISentCommand (terminateAgentCmd agentId)
  | deleteTask (taskId : String) : UISentCommand (deleteTaskCmd taskId)
  | manualAssign (taskId agentId : String) : UISentCommand (manualAssignTaskCmd taskId agentId)
  | getProgress (taskId : String) : UISentCommand (getProgressCmd taskId)

/-
All command messages producible by src/static/script.js as a whole,
including the legacy second document's spawn-agent button.
-/
inductive ObserverSentCommand : CommandMsg → Prop where
  | ui (m : CommandMsg) : UISentCommand m → ObserverSentCommand m
  | spawnAgent : ObserverSentCommand spawnAgentCmd

/--
Modelled from the spec: the closed set of observer-to-engine command
messages of spec section 6, each shaped as a command tag with exactly the
payload fields listed there.  This is the spec-side contract used for the
refinement comparison; it is deliberately written from the spec's words,
not from the source.
-/
def SpecCommandMessage (m : CommandMsg) : Prop :=
  (∃ c, m = createAgentCmd c) ∨
  (∃ a, m = startAgentCmd a) ∨
  (∃ a, m = stopAgentCmd a) ∨
  (∃ a, m = terminateAgentCmd a) ∨
  (∃ d, m = addTaskCmd d) ∨
  (∃ t, m = deleteTaskCmd t) ∨
  (∃ t a, m = manualAssignTaskCmd t a) ∨
  (∃ md, (md = "auto" ∨ md = "manual") ∧
    m = { command := "set_assignment_mode", payload := some [("mode", md)] }) ∨
  (∃ t, m = getProgressCmd t)

/-
Manual assignment controls, from the task-rendering loop of `updateUI`
in src/static/script.js (first document).
-/

structure OptionEntry where
  value : String
  disabled : Bool
deriving DecidableEq

/- `Object.values(currentAgents)` filtered to `agent.status === 'idle'`. -/
def idleAgents (agents : List (String × AgentData)) : List AgentData :=
  (agents.map Prod.snd).filter fun a => a.status == "idle"

/-
The options pushed into the per-task select element: one option per idle
agent (value = agent.id), then a disabled placeholder when there were
none.  A placeholder option without a value attribute exposes its text as
its DOM value.
-/
def assignSelectOptions (agents : List (String × AgentData)) : List OptionEntry :=
  ((idleAgents agents).map fun a => { value := a.id, disabled := false }) ++
    (if (idleAgents agents).isEmpty then [{ value := "No idle agents", disabled := true }] else [])

/- `assignBtn.disabled = !hasIdleAgents`. -/
def assignBtnDisabled (agents : List (String × AgentData)) : Bool :=
  (idleAgents agents).isEmpty

/- The controls are rendered only under this condition in `updateUI`. -/
def assignControlsShown (mode : String) (task : TaskData) : Bool :=
  mode == "manual" && (task.status == "new" || task.status == "incomplete")

/-
The Assign button's click handler: it can run only when the controls were
rendered and the button is enabled; it reads the selected option and sends
`manual_assign_task` iff the selected value is truthy and the option is
not disabled.
-/
def manualAssignClick (mode : String) (task : TaskData)
    (agents : List (String × AgentData)) (i : Nat) : Option CommandMsg :=
  if assignControlsShown mode task && !assignBtnDisabled agents then
    match (assignSelectOptions agents)[i]? with
    | some opt =>
      if opt.value != "" && !opt.disabled then
        some (manualAssignTaskCmd task.id opt.value)
      else none
    | none => none
  else none

/-
Workspace/task page client, from `handleWebSocketMessage` in
src/unnamed/part_001: local store `tasksData` (a JS object keyed by task
id) and `selectedTaskId`.
-/

structure PTask where
  id : String
  description : String
  state : String
deriving DecidableEq

/- A `task_update` delta's `message.data`, merged via `Object.assign`. -/
structure PTaskPatch where
  id : Option String
  description : Option String
  state : Option String
deriving DecidableEq

def applyObjectAssign (t : PTask) (d : PTaskPatch) : PTask :=
  { id := d.id.getD t.id
    description := d.description.getD t.description
    state := d.state.getD t.state }

inductive WsMsg where
  | workspacesUpdated
  | taskCreated (task : PTask)
  | taskUpdate (task_id : String) (data : PTaskPatch)
  | taskDeleted (task_id : String)
  | unknownType

structure ClientState where
  tasksData : String → Option PTask
  selectedTaskId : Option String

def handleWebSocketMessage (message : WsMsg) (s : ClientState) : ClientState :=
  match message with
  | .workspacesUpdated => s
  | .taskCreated t =>
    { s with tasksData := fun k => if k = t.id then some t else s.tasksData k }
  | .taskUpdate tid d =>
    match s.tasksData tid with
    | some t =>
      { s with tasksData := fun k => if k = tid then some (applyObjectAssign t d) else s.tasksData k }
    | none => s
  | .taskDeleted tid =>
    match s.tasksData tid with
    | some _ =>
      { tasksData := fun k => if k = tid then none else s.tasksData k
        selectedTaskId := if s.selectedTaskId = some tid then none else s.selectedTaskId }
    | none => s
  | .unknownType => s

/-
Reconnect policy, from `ws.onclose` in src/static/script.js and
`socket.onclose` in src/unnamed/part_001: every close schedules exactly
one `setTimeout(connectWebSocket, 5000)`.  `scheduled` records the delays
of the reconnect attempts scheduled so far, in order.
-/

structure ReconnectSession where
  scheduled : List Nat
deriving DecidableEq

def reconnectDelayMs : Nat := 5000

def wsOnClose (s : ReconnectSession) : ReconnectSession :=
  { scheduled := s.scheduled ++ [reconnectDelayMs] }

def closesSession : Nat → ReconnectSession
  | 0 => { scheduled := [] }
  | n + 1 => wsOnClose (closesSession n)

/- Helper lemmas about the greedy separator count. -/

theorem occCountAux_congr :
    ∀ (f₁ f₂ : Nat) (s : List Char), s.length ≤ f₁ → s.length ≤ f₂ →
      occCountAux f₁ s = occCountAux f₂ s := by
  intro f₁
  induction f₁ with
  | zero =>
    intro f₂ s h1 _
    have hs : s = [] := List.eq_nil_of_length_eq_zero (Nat.le_zero.mp h1)
    subst hs
    cases f₂ <;> rfl
  | succ k ih =>
    intro f₂ s h1 h2
    cases s with
    | nil => cases f₂ <;> rfl
    | cons c rest =>
      cases f₂ with
      | zero => simp at h2
      | succ g =>
        simp only [occCountAux]
        cases hp : sepChars.isPrefixOf (c :: rest) with
        | true =>
          rw [if_pos rfl, if_pos rfl]
          have hd1 : ((c :: rest).drop sepChars.length).length ≤ k := by
            simp only [List.length_drop, List.length_cons] at *
            simp only [sepChars, List.length_cons, List.length_nil] at *
            omega
          have hd2 : ((c :: rest).drop sepChars.length).length ≤ g := by
            simp only [List.length_drop, List.length_cons] at *
            simp only [sepChars, List.length_cons, List.length_nil] at *
            omega
          rw [ih g _ hd1 hd2]
        | false =>
          rw [if_neg (by simp), if_neg (by simp)]
          have hr1 : rest.length ≤ k := by simp at h1; omega
          have hr2 : rest.length ≤ g := by simp at h2; omega
          exact ih g rest hr1 hr2

theorem occCount_cons_pos {c : Char} {rest : List Char}
    (h : sepChars.isPrefixOf (c :: rest) = true) :
    occCount (c :: rest) = occCount ((c :: rest).drop sepChars.length) + 1 := by
  show occCountAux (rest.length + 1) (c :: rest) = _
  simp only [occCountAux, if_pos h]
  have hle : ((c :: rest).drop sepChars.length).length ≤ rest.length := by
    simp only [List.length_drop, List.length_cons, sepChars, List.length_nil]
    omega
  rw [occCountAux_congr rest.length ((c :: rest).drop sepChars.length).length _ hle (Nat.le_refl _)]
  rfl

theorem occCount_cons_neg {c : Char} {rest : List Char}
    (h : sepChars.isPrefixOf (c :: rest) = false) :
    occCount (c :: rest) = occCount rest := by
  show occCountAux (rest.length + 1) (c :: rest) = _
  simp only [occCountAux, h]
  rfl

theorem occCount_short (s : List Char) (h : s.length < sepChars.length) : occCount s = 0 := by
  induction s with
  | nil => rfl
  | cons c rest ih =>
    cases hp : sepChars.isPrefixOf (c :: rest) with
    | true =>
      have := ( List.isPrefixOf_iff_prefix.mp hp).length_le
      omega
    | false =>
      rw [occCount_cons_neg hp]
      exact ih (by simp at h ⊢; omega)

theorem sep_isPrefixOf_append {s t : List Char} (h : sepChars.isPrefixOf s = true) :
    sepChars.isPrefixOf (s ++ t) = true := by
  rw [ List.isPrefixOf_iff_prefix] at h ⊢
  exact h.trans (List.prefix_append s t)

theorem sep_isPrefixOf_of_append {s t : List Char} (hlen : sepChars.length ≤ s.length)
    (h : sepChars.isPrefixOf (s ++ t) = true) : sepChars.isPrefixOf s = true := by
  rw [ List.isPrefixOf_iff_prefix] at h ⊢
  rw [List.prefix_iff_eq_take] at h ⊢
  rw [List.take_append_of_le_length hlen] at h
  exact h

theorem occCount_le_append :
    ∀ (n : Nat) (s t : List Char), s.length ≤ n → occCount s ≤ occCount (s ++ t) := by
  intro n
  induction n with
  | zero =>
    intro s t h
    have hs : s = [] := List.eq_nil_of_length_eq_zero (Nat.le_zero.mp h)
    subst hs
    exact Nat.zero_le _
  | succ k ih =>
    intro s t h
    cases s with
    | nil => exact Nat.zero_le _
    | cons c rest =>
      cases hp : sepChars.isPrefixOf (c :: rest) with
      | true =>
        have h5 : sepChars.length ≤ (c :: rest).length :=
          ( List.isPrefixOf_iff_prefix.mp hp).length_le
        have hp2 : sepChars.isPrefixOf (c :: (rest ++ t)) = true := by
          have := @sep_isPrefixOf_append (c :: rest) t hp
          simpa using this
        rw [occCount_cons_pos hp]
        rw [show (c :: rest) ++ t = c :: (rest ++ t) from rfl]
        rw [occCount_cons_pos hp2]
        have hdrop : (c :: (rest ++ t)).drop sepChars.length =
            (c :: rest).drop sepChars.length ++ t := by
          have := @List.drop_append_of_le_length Char (c :: rest) t sepChars.length h5
          simpa using this
        rw [hdrop]
        have hlen2 : ((c :: rest).drop sepChars.length).length ≤ k := by
          simp only [List.length_drop, List.length_cons, sepChars, List.length_nil] at *
          omega
        exact Nat.succ_le_succ (ih _ t hlen2)
      | false =>
        cases hq : sepChars.isPrefixOf (c :: (rest ++ t)) with
        | true =>
          rcases Nat.lt_or_ge (c :: rest).length sepChars.length with hlt | hge
          · rw [occCount_short _ hlt]
            exact Nat.zero_le _
          · have hpre : sepChars.isPrefixOf (c :: rest) = true :=
              sep_isPrefixOf_of_append hge (by simpa using hq)
            rw [hpre] at hp
            cases hp
        | false =>
          rw [occCount_cons_neg hp]
          rw [show (c :: rest) ++ t = c :: (rest ++ t) from rfl]
          rw [occCount_cons_neg hq]
          exact ih rest t (by simp at h; omega)

/- The delta handler appends tokens verbatim once the prefix guard holds
and the content already splits into at least three parts. -/

theorem runDeltas_exact :
    ∀ (ds : List (List Char)) (tid : List Char) (p : ProgressPanel),
      p.shortId.isPrefixOf tid = true → 3 ≤ sepSplitCount p.content →
      runDeltas tid ds p = { shortId := p.shortId, content := p.content ++ ds.flatten } := by
  intro ds
  induction ds with
  | nil =>
    intro tid p hpre hcnt
    cases p
    simp [runDeltas]
  | cons t ds ih =>
    intro tid p hpre hcnt
    have hlt : ¬ sepSplitCount p.content < 3 := by omega
    have hstep : updateProgressPanelDelta tid t p =
        { shortId := p.shortId, content := p.content ++ t } := by
      simp [updateProgressPanelDelta, hpre, hlt]
    have hcnt2 : 3 ≤ sepSplitCount (p.content ++ t) := by
      unfold sepSplitCount at hcnt ⊢
      have := occCount_le_append p.content.length p.content t (Nat.le_refl _)
      omega
    rw [show runDeltas tid (t :: ds) p = runDeltas tid ds (updateProgressPanelDelta tid t p)
      from rfl]
    rw [hstep]
    rw [ih tid { shortId := p.shortId, content := p.content ++ t } hpre hcnt2]
    simp

theorem runSSE_updates :
    ∀ (ds : List (List Char)) (c : List Char),
      runSSE (ds.map SSEMsg.historyUpdate) c = c ++ ds.flatten := by
  intro ds
  induction ds with
  | nil => intro c; simp [runSSE]
  | cons t ds ih =>
    intro c
    rw [show runSSE ((t :: ds).map SSEMsg.historyUpdate) c =
      runSSE (ds.map SSEMsg.historyUpdate) (c ++ t) from rfl]
    rw [ih (c ++ t)]
    simp

theorem closesSession_scheduled (n : Nat) :
    (closesSession n).scheduled = List.replicate n reconnectDelayMs := by
  induction n with
  | zero => rfl
  | succ k ih => simp [closesSession, wsOnClose, ih, List.replicate_succ']

/- Claim theorems. -/

/--
Claim C1 (code bug): the code routes progress messages to the open view by
`receivedTaskId.startsWith(truncated id)`, not by exact identifier match.
At the failing input below, the panel is open for task "aaaaaaaa1" and a
full-progress message for the distinct task "aaaaaaaa2" is applied to it,
while the claimed exact-match contract requires it to be ignored.
-/
theorem progress_routing_prefix_not_exact :
    (updateProgressPanelFull
        ['a', 'a', 'a', 'a', 'a', 'a', 'a', 'a', '2'] ['h', 'i']
        (requestTaskProgress ['a', 'a', 'a', 'a', 'a', 'a', 'a', 'a', '1']
          { shortId := [], content := [] })).content = ['h', 'i'] ∧
    (['a', 'a', 'a', 'a', 'a', 'a', 'a', 'a', '1'] : List Char) ≠
      ['a', 'a', 'a', 'a', 'a', 'a', 'a', 'a', '2'] := by
  decide

/--
Claim C2 counterexample: the main-page delta handler does not produce
exactly fullhistory ++ tokens; with full history "H" (fewer than three
separator-split parts) and one delta "x", the panel shows "H\n|||\nx",
not "Hx".
-/
theorem progress_delta_not_exact_concat :
    (runDeltas ['t'] [['x']]
        (updateProgressPanelFull ['t'] ['H']
          (requestTaskProgress ['t'] { shortId := [], content := [] }))).content ≠
      ['H'] ++ ['x'] := by
  decide

/--
Claim C2 (amended): after one full-history message followed by any
sequence of deltas, (a) the task-history page (task.js) displays exactly
the full history concatenated with the delta tokens in delivery order,
none dropped or reordered; (b) the main-page progress panel does the same
whenever the full history already splits into at least three "\n|||\n"
separated parts (otherwise it inserts separators before early deltas, as
the counterexample shows, still appending the deltas themselves in order).
-/
theorem progress_stream_order :
    (∀ (h : List Char) (ds : List (List Char)) (c₀ : List Char),
        runSSE (SSEMsg.initialHistory h :: ds.map SSEMsg.historyUpdate) c₀ = h ++ ds.flatten) ∧
    (∀ (taskId fullHistory : List Char) (ds : List (List Char)) (p₀ : ProgressPanel),
        3 ≤ sepSplitCount fullHistory →
        (runDeltas taskId ds
            (updateProgressPanelFull taskId fullHistory
              (requestTaskProgress taskId p₀))).content = fullHistory ++ ds.flatten) := by
  constructor
  · intro h ds c₀
    rw [show runSSE (SSEMsg.initialHistory h :: ds.map SSEMsg.historyUpdate) c₀ =
      runSSE (ds.map SSEMsg.historyUpdate) h from rfl]
    exact runSSE_updates ds h
  · intro tid fh ds p₀ hcnt
    have hpre : (tid.take 8).isPrefixOf tid = true := by
      rw [ List.isPrefixOf_iff_prefix]
      exact List.take_prefix 8 tid
    have hfull : updateProgressPanelFull tid fh (requestTaskProgress tid p₀) =
        { shortId := tid.take 8, content := fh } := by
      simp [updateProgressPanelFull, requestTaskProgress, hpre]
    rw [hfull]
    rw [runDeltas_exact ds tid { shortId := tid.take 8, content := fh } hpre hcnt]

/-- Claim C2 witness: the amended theorem at a concrete input. -/
theorem progress_stream_order_witness :
    3 ≤ sepSplitCount (sepChars ++ sepChars) ∧
    (runDeltas ['t'] [['x'], ['y']]
        (updateProgressPanelFull ['t'] (sepChars ++ sepChars)
          (requestTaskProgress ['t'] { shortId := [], content := [] }))).content =
      (sepChars ++ sepChars) ++ [['x'], ['y']].flatten :=
  ⟨by decide, progress_stream_order.2 ['t'] (sepChars ++ sepChars) [['x'], ['y']] _ (by decide)⟩

/--
Claim C3: for every agent status, the Start action is offered exactly in
the created/stopped/error states, the Stop action exactly in idle/busy,
and Terminate exactly outside terminating; in particular nothing but
Terminate is offered in the transient starting/stopping states.
-/
theorem agent_lifecycle_buttons (status : String) :
    ((agentActions status).start = true ↔
        status = "created" ∨ status = "stopped" ∨ status = "error") ∧
    ((agentActions status).stop = true ↔ status = "idle" ∨ status = "busy") ∧
    ((agentActions status).terminate = true ↔ status ≠ "terminating") := by
  unfold agentActions
  split_ifs with h1 h2 <;> simp_all [List.contains_cons, bne_iff_ne]
  rcases h1 with h | h | h <;> subst h <;> simp

/-- Claim C3 witness: the theorem applied at concrete statuses. -/
theorem agent_lifecycle_buttons_witness :
    (agentActions "created").start = true ∧
    (agentActions "busy").stop = true ∧
    (agentActions "starting").terminate = true :=
  ⟨(agent_lifecycle_buttons "created").1.mpr (Or.inl rfl),
   (agent_lifecycle_buttons "busy").2.1.mpr (Or.inr rfl),
   (agent_lifecycle_buttons "starting").2.2.mpr (by decide)⟩

/--
Claim C4: processing a 'state' snapshot overwrites the whole local view
with the snapshot's contents, independently of the prior local view: two
observers processing the same snapshot from different prior states end
identical, and for a snapshot with all fields present the resulting view
is exactly the snapshot's agents, tasks and mode.
-/
theorem state_snapshot_replaces_view (m : StateMsg) (s₁ s₂ : ObserverState) :
    applyStateMsg m s₁ = applyStateMsg m s₂ ∧
    (∀ ags tks md, m = { agents := some ags, tasks := some tks, mode := some md } →
      applyStateMsg m s₁ = { agents := ags, tasks := tks, mode := md }) := by
  refine ⟨rfl, ?_⟩
  rintro ags tks md rfl
  rfl

/-- Claim C4 witness: the theorem applied at a concrete snapshot and two prior states. -/
theorem state_snapshot_replaces_view_witness :
    applyStateMsg { agents := some [], tasks := some [], mode := some "manual" }
        { agents := [], tasks := [], mode := "auto" } =
      applyStateMsg { agents := some [], tasks := some [], mode := some "manual" }
        { agents := [("a", { id := "a", status := "busy", assigned_task_id := none })],
          tasks := [], mode := "x" } ∧
    applyStateMsg { agents := some [], tasks := some [], mode := some "manual" }
        { agents := [], tasks := [], mode := "auto" } =
      { agents := [], tasks := [], mode := "manual" } :=
  ⟨(state_snapshot_replaces_view _ _ _).1,
   (state_snapshot_replaces_view _ _
      { agents := [], tasks := [], mode := "auto" }).2 _ _ _ rfl⟩

/--
Claim C5: a manual_assign_task command can only be produced when the mode
is manual and the task is new or incomplete, and the agent it names is one
whose status is exactly idle; every enabled option of the assignment
select names an idle agent, and the Assign button is disabled when no
idle agent exists.
-/
theorem manual_assign_eligibility :
    (∀ (mode : String) (task : TaskData) (agents : List (String × AgentData)) (i : Nat)
        (cmd : CommandMsg),
        manualAssignClick mode task agents i = some cmd →
        mode = "manual" ∧ (task.status = "new" ∨ task.status = "incomplete") ∧
        ∃ a, a ∈ agents.map Prod.snd ∧ a.status = "idle" ∧
          cmd = manualAssignTaskCmd task.id a.id) ∧
    (∀ (agents : List (String × AgentData)) (opt : OptionEntry),
        opt ∈ assignSelectOptions agents → opt.disabled = false →
        ∃ a, a ∈ agents.map Prod.snd ∧ a.status = "idle" ∧ opt.value = a.id) ∧
    (∀ agents : List (String × AgentData),
        idleAgents agents = [] → assignBtnDisabled agents = true) := by
  have hopt : ∀ (agents : List (String × AgentData)) (opt : OptionEntry),
      opt ∈ assignSelectOptions agents → opt.disabled = false →
      ∃ a, a ∈ agents.map Prod.snd ∧ a.status = "idle" ∧ opt.value = a.id := by
    intro agents opt hmem hdis
    unfold assignSelectOptions at hmem
    rcases List.mem_append.mp hmem with hm | hm
    · rcases List.mem_map.mp hm with ⟨a, ha, rfl⟩
      rcases List.mem_filter.mp ha with ⟨hmem2, hstat⟩
      exact ⟨a, hmem2, by simpa using hstat, rfl⟩
    · split at hm <;> simp_all
  refine ⟨?_, hopt, ?_⟩
  · intro mode task agents i cmd h
    unfold manualAssignClick at h
    split at h
    case isFalse => exact absurd h (by simp)
    case isTrue hg =>
      have hg' := hg
      simp only [Bool.and_eq_true, Bool.not_eq_true] at hg'
      obtain ⟨hshown, hbtn⟩ := hg'
      simp only [assignControlsShown, Bool.and_eq_true, Bool.or_eq_true, beq_iff_eq] at hshown
      obtain ⟨hmode, hstat⟩ := hshown
      split at h
      case h_2 => exact absurd h (by simp)
      case h_1 opt hget =>
        split at h
        case isFalse => exact absurd h (by simp)
        case isTrue hv =>
          simp only [Bool.and_eq_true, Bool.not_eq_true', bne_iff_ne] at hv
          obtain ⟨hval, hdis⟩ := hv
          have hin : opt ∈ assignSelectOptions agents := List.getElem?_mem hget
          rcases hopt agents opt hin hdis with ⟨a, hamem, hidle, hval2⟩
          refine ⟨hmode, hstat, a, hamem, hidle, ?_⟩
          cases h
          rw [hval2]
  · intro agents h
    simp [assignBtnDisabled, h]

/-- Claim C5 witness: a concrete click that produces the command for an idle agent. -/
theorem manual_assign_eligibility_witness :
    manualAssignClick "manual"
        { id := "t1", status := "new", description := "d",
          assigned_agent_id := none, result := none }
        [("a1", { id := "a1", status := "idle", assigned_task_id := none })] 0 =
      some (manualAssignTaskCmd "t1" "a1") ∧
    ("manual" : String) = "manual" ∧
    (("new" : String) = "new" ∨ ("new" : String) = "incomplete") :=
  ⟨by decide,
   (manual_assign_eligibility.1 "manual"
      { id := "t1", status := "new", description := "d",
        assigned_agent_id := none, result := none }
      [("a1", { id := "a1", status := "idle", assigned_task_id := none })] 0
      (manualAssignTaskCmd "t1" "a1") (by decide)).1,
   (manual_assign_eligibility.1 "manual"
      { id := "t1", status := "new", description := "d",
        assigned_agent_id := none, result := none }
      [("a1", { id := "a1", status := "idle", assigned_task_id := none })] 0
      (manualAssignTaskCmd "t1" "a1") (by decide)).2.1⟩

/--
Claim C6: handling task_deleted is idempotent and total: the first receipt
removes the task id from the local store, and a second receipt of the same
event is a no-op that leaves the whole client state unchanged.
-/
theorem task_deleted_idempotent (tid : String) (s : ClientState) :
    (handleWebSocketMessage (.taskDeleted tid) s).tasksData tid = none ∧
    handleWebSocketMessage (.taskDeleted tid) (handleWebSocketMessage (.taskDeleted tid) s) =
      handleWebSocketMessage (.taskDeleted tid) s := by
  have h2 : ∀ s' : ClientState, s'.tasksData tid = none →
      handleWebSocketMessage (.taskDeleted tid) s' = s' := by
    intro s' h
    simp [handleWebSocketMessage, h]
  have h1 : (handleWebSocketMessage (.taskDeleted tid) s).tasksData tid = none := by
    cases h : s.tasksData tid with
    | none => simp [handleWebSocketMessage, h]
    | some t => simp [handleWebSocketMessage, h]
  exact ⟨h1, h2 _ h1⟩

/--
Claim C7: the mode_update handler changes only the stored assignment mode;
the agents map and the tasks map (hence every agent's status and assigned
task, and every task's status, assigned agent and result) are unchanged.
-/
theorem mode_update_frame (mode : String) (s : ObserverState) :
    (applyModeUpdate mode s).mode = mode ∧
    (applyModeUpdate mode s).agents = s.agents ∧
    (applyModeUpdate mode s).tasks = s.tasks :=
  ⟨rfl, rfl, rfl⟩

/--
Claim C8 counterexample: the spawn-agent button of the second script
document sends the command spawn_agent with no payload, which is outside
the nine-command set of the spec contract.
-/
theorem spawn_agent_outside_command_set :
    ObserverSentCommand spawnAgentCmd ∧ ¬ SpecCommandMessage spawnAgentCmd := by
  refine ⟨ObserverSentCommand.spawnAgent, ?_⟩
  intro h
  rcases h with ⟨c, hc⟩ | ⟨a, hc⟩ | ⟨a, hc⟩ | ⟨a, hc⟩ | ⟨d, hc⟩ | ⟨t, hc⟩ |
    ⟨t, a, hc⟩ | ⟨md, _, hc⟩ | ⟨t, hc⟩ <;>
    simp [spawnAgentCmd, createAgentCmd, startAgentCmd, stopAgentCmd, terminateAgentCmd,
      addTaskCmd, deleteTaskCmd, manualAssignTaskCmd, getProgressCmd] at hc

/--
Claim C8 (amended): every command the current UI document can send is one
of the nine commands of the spec contract with exactly the payload fields
specified there; the legacy second document additionally sends spawn_agent
with no payload, as the counterexample records.
-/
theorem ui_commands_conform (m : CommandMsg) (h : UISentCommand m) : SpecCommandMessage m := by
  cases h with
  | setAssignmentMode checked =>
    refine Or.inr (Or.inr (Or.inr (Or.inr (Or.inr (Or.inr (Or.inr (Or.inl ?_)))))))
    exact ⟨if checked then "auto" else "manual", by cases checked <;> simp, rfl⟩
  | createAgent config => exact Or.inl ⟨config, rfl⟩
  | startAgent agentId => exact Or.inr (Or.inl ⟨agentId, rfl⟩)
  | stopAgent agentId => exact Or.inr (Or.inr (Or.inl ⟨agentId, rfl⟩))
  | terminateAgent agentId => exact Or.inr (Or.inr (Or.inr (Or.inl ⟨agentId, rfl⟩)))
  | addTask description => exact Or.inr (Or.inr (Or.inr (Or.inr (Or.inl ⟨description, rfl⟩))))
  | deleteTask taskId =>
    exact Or.inr (Or.inr (Or.inr (Or.inr (Or.inr (Or.inl ⟨taskId, rfl⟩)))))
  | manualAssign taskId agentId =>
    exact Or.inr (Or.inr (Or.inr (Or.inr (Or.inr (Or.inr (Or.inl ⟨taskId, agentId, rfl⟩))))))
  | getProgress taskId =>
    exact Or.inr (Or.inr (Or.inr (Or.inr (Or.inr (Or.inr (Or.inr (Or.inr ⟨taskId, rfl⟩)))))))

/-- Claim C8 witness: the amended theorem applied at a concrete command. -/
theorem ui_commands_conform_witness :
    UISentCommand (startAgentCmd "agent-1") ∧ SpecCommandMessage (startAgentCmd "agent-1") :=
  ⟨UISentCommand.startAgent "agent-1",
   ui_commands_conform _ (UISentCommand.startAgent "agent-1")⟩

/--
Claim C9 counterexample: the total number of reconnect attempts is not
bounded; after n connection closes the session has scheduled n retries,
so no bound covers every run.
-/
theorem reconnect_retries_unbounded :
    ¬ ∃ B : Nat, ∀ n : Nat, (closesSession n).scheduled.length ≤ B := by
  rintro ⟨B, hB⟩
  have h := hB (B + 1)
  rw [closesSession_scheduled, List.length_replicate] at h
  omega

/--
Claim C9 (amended): after every connection close, exactly one reconnection
attempt is scheduled, always with the same fixed 5000 ms delay; after n
closes exactly n retries have been scheduled, all with that delay, with no
bound on the total number of retries.
-/
theorem reconnect_fixed_delay_each_close (s : ReconnectSession) (n : Nat) :
    (wsOnClose s).scheduled = s.scheduled ++ [reconnectDelayMs] ∧
    (closesSession n).scheduled = List.replicate n reconnectDelayMs ∧
    reconnectDelayMs = 5000 :=
  ⟨rfl, closesSession_scheduled n, rfl⟩

/--
Claim C10: a task_update or task_deleted delta naming a task id absent
from the local store leaves the client state completely unchanged and
raises no error.
-/
theorem unknown_task_delta_noop (tid : String) (d : PTaskPatch) (s : ClientState)
    (h : s.tasksData tid = none) :
    handleWebSocketMessage (.taskUpdate tid d) s = s ∧
    handleWebSocketMessage (.taskDeleted tid) s = s := by
  constructor <;> simp [handleWebSocketMessage, h]

/-- Claim C10 witness: the theorem applied at a concrete empty store. -/
theorem unknown_task_delta_noop_witness :
    ({ tasksData := fun _ => none, selectedTaskId := none } : ClientState).tasksData "t1" =
      none ∧
    handleWebSocketMessage (.taskUpdate "t1" { id := none, description := none, state := none })
        { tasksData := fun _ => none, selectedTaskId := none } =
      { tasksData := fun _ => none, selectedTaskId := none } :=
  ⟨rfl,
   (unknown_task_delta_noop "t1" { id := none, description := none, state := none }
      { tasksData := fun _ => none, selectedTaskId := none } rfl).1⟩

end Skryvix
